import Mathlib

/-!
A verification development for the `asdf-fd` installer library
(`lib/lib.py` and the `fd` plugin descriptor `lib/plugins/fd.py`).

The Python code is shallowly embedded: pure string manipulation is
translated to Lean functions over `String`/`List Char`, the installer's
filesystem effects become explicit state passing over a finite-map
filesystem model, and the external collaborators (HTTP fetches, the
SHA-256 subprocess, the gzip and tar codecs) are abstracted as fields of
an `Env` record, since their internals live outside the repository.
-/

namespace AsdfFd

/-! ## Python-flavoured string primitives -/

/-- `subChars small big` decides whether `small` occurs as a contiguous
infix of `big`, i.e. Python's `small in big` on strings. -/
def subChars (small : List Char) : List Char → Bool
  | [] => small.isEmpty
  | c :: rest => small.isPrefixOf (c :: rest) || subChars small rest

/-- Python `small in big` substring test on `String`. -/
def substrOf (small big : String) : Bool :=
  subChars small.data big.data

/-- Python `s.endswith(suffix)`. -/
def endsWithS (s suffix : String) : Bool :=
  suffix.data.isSuffixOf s.data

/-- Whether a path string is absolute (starts with a slash). -/
def pyIsAbs (s : String) : Bool :=
  s.data.head? == some '/'

/-- Python `s.lstrip(chars)` on character lists: drop leading characters
that belong to `chars`. -/
def lstripChars (chars l : List Char) : List Char :=
  l.dropWhile (fun c => chars.contains c)

/-- Python `s.rstrip(chars)` on character lists: drop trailing characters
that belong to `chars`. -/
def rstripChars (chars l : List Char) : List Char :=
  (l.reverse.dropWhile (fun c => chars.contains c)).reverse

/-- Python `s.lstrip(chars)`. -/
def pyLstrip (s chars : String) : String :=
  ⟨lstripChars chars.data s.data⟩

/-- Python `s.rstrip(chars)`. -/
def pyRstrip (s chars : String) : String :=
  ⟨rstripChars chars.data s.data⟩

/-- Split a character list at every character satisfying `p`; the
separators are dropped and empty pieces are kept. -/
def splitByGo (p : Char → Bool) : List Char → List Char → List (List Char)
  | [], acc => [acc.reverse]
  | c :: rest, acc =>
    if p c then acc.reverse :: splitByGo p rest []
    else splitByGo p rest (c :: acc)

def splitBy (p : Char → Bool) (l : List Char) : List (List Char) :=
  splitByGo p l []

/-- Python `str.split()` with no argument: split on whitespace runs and
drop empty pieces. -/
def pySplitWs (s : String) : List String :=
  ((splitBy (fun c => c.isWhitespace) s.data).filter (fun l => !(l == []))).map
    (fun l => ⟨l⟩)

/-- Iterating over a text file in Python yields its lines, each keeping
its trailing newline; an empty file yields no lines. -/
def pyLinesGo : List Char → List Char → List String
  | [], [] => []
  | [], acc => [⟨acc.reverse⟩]
  | c :: rest, acc =>
    if c = '\n' then (⟨(c :: acc).reverse⟩ : String) :: pyLinesGo rest []
    else pyLinesGo rest (c :: acc)

def pyLines (s : String) : List String :=
  pyLinesGo s.data []

/-- Decompose a path string into its components, the way `pathlib`
normalises pure paths: split on `/`, dropping empty components and
single-dot components (`..` components are kept). -/
def splitPathStr (s : String) : List String :=
  ((splitBy (fun c => c = '/') s.data).filter
    (fun l => !(l == []) && !(l == ['.']))).map (fun l => ⟨l⟩)

/-! ## Errors

One constructor per `raise`/exception site the installer can hit. -/

inductive Err
  | unsupportedPlatform
  | unsupportedArch
  | keyError
  | missingField
  | downloadFailed
  | checksumNotFound
  | checksumIndex
  | checksumFailed
  | unsupportedFormat
  | binaryNotFound
  | fsFault
  | tarEscape
  | gunzipFault
  | tarFault
  | upstreamFault
  | customFault
deriving DecidableEq, Repr

deriving instance DecidableEq for Except

/-! ## The filesystem model

Paths are lists of components.  A filesystem is an association list of
files (most recent write first) together with the set of existing
directories.  Python `Path` operations used by the installer are
modelled on top of it. -/

abbrev FsPath := List String

structure FileEnt where
  content : String
  mode : Nat
deriving DecidableEq, Repr

structure FS where
  files : List (FsPath × FileEnt)
  dirs : List FsPath
deriving DecidableEq, Repr

/-- `base / s` for a pathlib `Path` and a string: an absolute right
operand replaces the base, otherwise components are appended. -/
def pathJoin (base : FsPath) (s : String) : FsPath :=
  if pyIsAbs s then splitPathStr s else base ++ splitPathStr s

/-- `Path.name`: the final path component. -/
def pathName (p : FsPath) : String :=
  p.getLast?.getD ""

def fsFindFile (fs : FS) (p : FsPath) : Option FileEnt :=
  fs.files.lookup p

/-- All prefixes of a path, shortest first (used by `mkdir(parents=True)`). -/
def pathPrefixes (p : FsPath) : List FsPath :=
  (List.range (p.length + 1)).map (fun n => p.take n)

/-- `Path.mkdir(parents=True, exist_ok=True)`. -/
def fsMkdirTree (fs : FS) (p : FsPath) : FS :=
  { fs with dirs := (pathPrefixes p).filter (fun q => !(fs.dirs.contains q)) ++ fs.dirs }

/-- `Path.mkdir(exist_ok=True)` without `parents`: the parent directory
must already exist. -/
def fsMkdir (fs : FS) (p : FsPath) : Except Err FS :=
  if fs.dirs.contains p.dropLast then
    .ok { fs with dirs := if fs.dirs.contains p then fs.dirs else p :: fs.dirs }
  else .error .fsFault

/-- `Path.write_bytes`: requires the parent directory to exist; the new
entry shadows any previous file at the same path. -/
def fsWriteFile (fs : FS) (p : FsPath) (content : String) (mode : Nat) :
    Except Err FS :=
  if fs.dirs.contains p.dropLast then
    .ok { fs with files := (p, ⟨content, mode⟩) :: fs.files }
  else .error .fsFault

/-- `Path.chmod`. -/
def fsChmod (fs : FS) (p : FsPath) (mode : Nat) : Except Err FS :=
  match fs.files.lookup p with
  | none => .error .fsFault
  | some f => .ok { fs with files := (p, ⟨f.content, mode⟩) :: fs.files }

/-- Removing a whole tree, as `TemporaryDirectory.__exit__` does. -/
def fsRemoveTree (fs : FS) (root : FsPath) : FS :=
  { files := fs.files.filter (fun e => !(root.isPrefixOf e.1)),
    dirs := fs.dirs.filter (fun d => !(root.isPrefixOf d)) }

/-! ## Descriptors and templates (`lib.py` data model) -/

/-- The `FormatKwargs` typed dictionary. -/
structure FormatKwargs where
  name : String
  repo_name : String
  version : String
  normalize_version : String
  platform : String
  arch : String
  filename : String
  checksum_filename : String
deriving DecidableEq, Repr

/-- `LibTemplate = Union[str, Callable[[FormatKwargs], str]]`. -/
inductive LibTemplate
  | lit (s : String)
  | fn (f : FormatKwargs → String)

/-- Truthiness of a template value in Python: an empty string is falsy,
any callable is truthy. -/
def templateTruthy : LibTemplate → Bool
  | .lit s => !(s == "")
  | .fn _ => true

/-- Look up a `FormatKwargs` key by name (for `str.format(**kwargs)`). -/
def fmtLookup (kw : FormatKwargs) (field : String) : Option String :=
  if field = "name" then some kw.name
  else if field = "repo_name" then some kw.repo_name
  else if field = "version" then some kw.version
  else if field = "normalize_version" then some kw.normalize_version
  else if field = "platform" then some kw.platform
  else if field = "arch" then some kw.arch
  else if field = "filename" then some kw.filename
  else if field = "checksum_filename" then some kw.checksum_filename
  else none

/-- `template.format(**format_kwargs)`: substitute `{key}` placeholders,
honouring the `\x7b\x7b`/`\x7d\x7d` escapes; an unknown key or a stray
brace raises.  `mode = some acc` means we are inside a placeholder whose
name (reversed) is `acc`. -/
def pyFormatGo (kw : FormatKwargs) :
    Option (List Char) → List Char → Except Err (List Char)
  | none, [] => .ok []
  | some _, [] => .error .missingField
  | some acc, c :: rest =>
    if c = '}' then
      match fmtLookup kw ⟨acc.reverse⟩ with
      | some v => (fun t => v.data ++ t) <$> pyFormatGo kw none rest
      | none => .error .missingField
    else pyFormatGo kw (some (c :: acc)) rest
  | none, '{' :: '{' :: rest => (fun t => '{' :: t) <$> pyFormatGo kw none rest
  | none, '{' :: rest => pyFormatGo kw (some []) rest
  | none, '}' :: '}' :: rest => (fun t => '}' :: t) <$> pyFormatGo kw none rest
  | none, '}' :: _ => .error .missingField
  | none, c :: rest => (fun t => c :: t) <$> pyFormatGo kw none rest

/-- `str.format(**format_kwargs)` on a whole template string. -/
def pyFormat (s : String) (kw : FormatKwargs) : Except Err String :=
  (fun l => (⟨l⟩ : String)) <$> pyFormatGo kw none s.data

/-- `format_template`: a callable template is applied, a string template
is `.format`-ted. -/
def format_template (t : LibTemplate) (kw : FormatKwargs) : Except Err String :=
  match t with
  | .fn f => .ok (f kw)
  | .lit s => pyFormat s kw

/-- The `Plugin` dataclass.  The Python `custom_copy` callback receives
the plugin itself as its first argument; since a structure cannot refer
to itself in a field type, the embedded callback closes over the plugin
instead and receives the remaining `(extract_path, install_path,
format_kwargs)` arguments plus the filesystem. -/
structure Plugin where
  name : String
  cmd : String
  repo_name : String
  filename_template : LibTemplate := .lit ""
  checksum_filename_template : LibTemplate := .lit ""
  bin_path : LibTemplate := .lit ""
  platform_map : Option (List (String × String)) := none
  arch_map : Option (List (String × String)) := none
  recover_raw_version : String → String := fun x => x
  custom_copy : Option (FsPath → FsPath → FormatKwargs → FS → Except Err Unit × FS) := none

/-! ## External collaborators

The network, the hashing subprocess and the compression codecs live
outside the repository; they are abstracted as an environment. -/

/-- A member of a tar archive (regular files only). -/
structure TarEntry where
  name : String
  content : String
  mode : Nat
deriving DecidableEq, Repr

structure Env where
  system : String
  machine : String
  fetch : String → Except Err String
  sha256 : String → String
  gunzip : String → Except Err String
  untar : String → Except Err (List TarEntry)

/-! ## `lib.py` functions -/

def API_RELEASE_URL : String := "https://api.github.com/repos/{repo_name}/releases"
def GITHUB_URL : String := "https://github.com/{repo_name}"
def DOWNLOAD_BASE_URL : String := GITHUB_URL ++ "/releases/download/{version}"
def BINARY_URL : String := DOWNLOAD_BASE_URL ++ "/{filename}"
def CHECKSUM_URL : String := DOWNLOAD_BASE_URL ++ "/{checksum_filename}"

/-- `str.lower()` (ASCII case folding, as `platform` tokens need). -/
def pyToLower (s : String) : String :=
  ⟨s.data.map Char.toLower⟩

/-- `get_system_info`: map the host OS and machine strings to the
canonical platform and architecture tokens. -/
def get_system_info (system machine : String) : Except Err (String × String) := do
  let sys := pyToLower system
  let plat ←
    if sys = "darwin" then .ok "darwin"
    else if sys = "linux" then .ok "linux"
    else .error Err.unsupportedPlatform
  let mach := pyToLower machine
  let arch ←
    if ["x86_64", "amd64"].contains mach then .ok "x86_64"
    else if ["arm64", "aarch64"].contains mach then .ok "aarch64"
    else .error Err.unsupportedArch
  .ok (plat, arch)

/-- `get_normalize_version`: `version.lstrip("v")`. -/
def get_normalize_version (version : String) : String :=
  pyLstrip version "v"

/-- `plugin.platform_map[plat] if plugin.platform_map else plat` (and the
same shape for `arch_map`): `None` and the empty dict are both falsy in
Python, giving the identity mapping; a non-empty mapping raises
`KeyError` on a missing key. -/
def mapLookup (m : Option (List (String × String))) (k : String) :
    Except Err String :=
  match m with
  | none => .ok k
  | some tbl =>
    if tbl.isEmpty then .ok k
    else
      match tbl.lookup k with
      | some v => .ok v
      | none => .error .keyError

/-- `verify_checksum(file_path, checksum_path)`: scan the manifest for
the first line containing `file_path.name` as a substring, take that
line's first whitespace-delimited token as the expected digest (raising
when no line matches, or `IndexError` when the matched line is blank),
then compare it with the SHA-256 hex digest of the artifact, computed by
the external `shasum`/`sha256sum` subprocess (`env.sha256`). -/
def verify_checksum (env : Env) (fs : FS) (file_path checksum_path : FsPath) :
    Except Err Bool :=
  match fsFindFile fs checksum_path with
  | none => .error .fsFault
  | some man =>
    match (pyLines man.content).find? (fun l => substrOf (pathName file_path) l) with
    | none => .error .checksumNotFound
    | some line =>
      match pySplitWs line with
      | [] => .error .checksumIndex
      | expected :: _ =>
        match fsFindFile fs file_path with
        | none => .error .fsFault
        | some af => .ok (env.sha256 af.content == expected)

/-! ## `install_version` -/

/-- The scoped temporary directory created by
`tempfile.TemporaryDirectory()`; one install invocation owns it. -/
def tmpRoot : FsPath := ["tmpdir"]

/-- Everything `install_version` computes before entering the temporary
directory: platform probing, alias mapping, raw-version recovery, the
format context, template resolution (filename, then checksum filename,
then binary path) and the download URL. -/
structure InstallCtx where
  kw : FormatKwargs
  filename : String
  checksum_filename : String
  bin_path : String
  download_url : String
deriving DecidableEq, Repr

def installPrelude (env : Env) (plugin : Plugin) (normalize_version : String) :
    Except Err InstallCtx := do
  let si ← get_system_info env.system env.machine
  let platform_name ← mapLookup plugin.platform_map si.1
  let arch_name ← mapLookup plugin.arch_map si.2
  let version := plugin.recover_raw_version normalize_version
  let kw0 : FormatKwargs :=
    { name := plugin.name, repo_name := plugin.repo_name, version := version,
      normalize_version := normalize_version, platform := platform_name,
      arch := arch_name, filename := "", checksum_filename := "" }
  let filename ← format_template plugin.filename_template kw0
  let kw1 := { kw0 with filename := filename }
  let checksum_filename ← format_template plugin.checksum_filename_template kw1
  let kw2 := { kw1 with checksum_filename := checksum_filename }
  let bin_path ← format_template plugin.bin_path kw2
  let download_url ← pyFormat BINARY_URL kw2
  .ok { kw := kw2, filename := filename, checksum_filename := checksum_filename,
        bin_path := bin_path, download_url := download_url }

/-- Short-circuiting sequencing of two stateful steps: a failed step
aborts the pipeline, keeping the filesystem it left behind. -/
def andThen (r : Except Err Unit × FS) (k : FS → Except Err Unit × FS) :
    Except Err Unit × FS :=
  match r with
  | (.error e, fs) => (.error e, fs)
  | (.ok _, fs) => k fs

/-- The checksum step: only when the descriptor declares a checksum
template, download the manifest next to the artifact and verify;
`verify_checksum` returning `False` raises
`Checksum verification failed`. -/
def checksumStage (env : Env) (plugin : Plugin) (ctx : InstallCtx)
    (tmp : FsPath) (fs : FS) : Except Err Unit × FS :=
  if templateTruthy plugin.checksum_filename_template then
    match pyFormat CHECKSUM_URL ctx.kw with
    | .error e => (.error e, fs)
    | .ok churl =>
      match env.fetch churl with
      | .error e => (.error e, fs)
      | .ok man =>
        let checksum_path := pathJoin tmp ctx.checksum_filename
        match fsWriteFile fs checksum_path man 0o644 with
        | .error e => (.error e, fs)
        | .ok fs1 =>
          match verify_checksum env fs1 (pathJoin tmp ctx.filename) checksum_path with
          | .error e => (.error e, fs1)
          | .ok true => (.ok (), fs1)
          | .ok false => (.error .checksumFailed, fs1)
  else (.ok (), fs)

/-- Resolution of one tar member name under the `filter="data"` policy:
`..` components resolve within the destination and refuse to climb
above its root. -/
def tarResolveGo : List String → List String → Except Err FsPath
  | [], acc => .ok acc.reverse
  | c :: rest, acc =>
    if c = ".." then
      match acc with
      | [] => .error .tarEscape
      | _ :: acc2 => tarResolveGo rest acc2
    else tarResolveGo rest (c :: acc)

/-- The data filter strips leading slashes from member names (an
absolute `/evil` is renamed and extracted at `dest/evil`) and then
refuses names whose `..` components would resolve above the
destination.  Splitting into components already discards the empty
piece a leading slash produces, so the stripping is inherent here. -/
def tarResolveName (name : String) : Except Err FsPath :=
  tarResolveGo (splitPathStr name) []

/-- `tar.extractall(extract_path, filter="data")` over the members of the
archive, in order: each member is placed at its resolved name below the
destination (intermediate directories are created); a member the data
filter refuses aborts the extraction. -/
def tarExtractAll (entries : List TarEntry) (dest : FsPath) (fs : FS) :
    Except Err Unit × FS :=
  match entries with
  | [] => (.ok (), fs)
  | e :: rest =>
    match tarResolveName e.name with
    | .error er => (.error er, fs)
    | .ok comps =>
      let p := dest ++ comps
      let fs1 := fsMkdirTree fs p.dropLast
      match fsWriteFile fs1 p e.content e.mode with
      | .error er => (.error er, fs1)
      | .ok fs2 => tarExtractAll rest dest fs2

/-- The suffix dispatch of `install_version`: `.tar.gz` artifacts are
untarred into the extraction directory, bare `.gz` artifacts are
gunzipped straight to the planned binary path (creating its parents),
anything else raises `Unsupported file type`. -/
def extractArtifact (env : Env) (filename bin_path : String)
    (download_path extract_path : FsPath) (fs : FS) : Except Err Unit × FS :=
  if endsWithS filename ".tar.gz" then
    match fsFindFile fs download_path with
    | none => (.error .fsFault, fs)
    | some f =>
      match env.untar f.content with
      | .error e => (.error e, fs)
      | .ok entries => tarExtractAll entries extract_path fs
  else if endsWithS filename ".gz" then
    let dst := pathJoin extract_path bin_path
    let fs1 := fsMkdirTree fs dst.dropLast
    match fsFindFile fs1 download_path with
    | none => (.error .fsFault, fs1)
    | some f =>
      match env.gunzip f.content with
      | .error e => (.error e, fs1)
      | .ok bytes =>
        match fsWriteFile fs1 dst bytes 0o644 with
        | .error e => (.error e, fs1)
        | .ok fs2 => (.ok (), fs2)
  else (.error .unsupportedFormat, fs)

/-- `extract_path = tmp_path / "extract"; extract_path.mkdir(exist_ok=True)`
followed by the suffix dispatch. -/
def extractStage (env : Env) (ctx : InstallCtx) (tmp : FsPath) (fs : FS) :
    Except Err Unit × FS :=
  match fsMkdir fs (tmp ++ ["extract"]) with
  | .error e => (.error e, fs)
  | .ok fs1 =>
    extractArtifact env ctx.filename ctx.bin_path (pathJoin tmp ctx.filename)
      (tmp ++ ["extract"]) fs1

/-- The placement step: a descriptor-supplied `custom_copy` is trusted
fully; otherwise the resolved binary path must exist under the
extraction root, `install_path/bin` is created, the file is copied there
(`shutil.copy2` preserves content and mode) under the descriptor's
command name and is finally `chmod`-ed to `0o755`. -/
def placeStage (plugin : Plugin) (ctx : InstallCtx) (install_path : FsPath)
    (tmp : FsPath) (fs : FS) : Except Err Unit × FS :=
  let extract_path := tmp ++ ["extract"]
  match plugin.custom_copy with
  | some cc => cc extract_path install_path ctx.kw fs
  | none =>
    let src := pathJoin extract_path ctx.bin_path
    match fsFindFile fs src with
    | none => (.error .binaryNotFound, fs)
    | some f =>
      let binDir := install_path ++ ["bin"]
      let fs1 := fsMkdirTree fs binDir
      let dst := pathJoin binDir plugin.cmd
      match fsWriteFile fs1 dst f.content f.mode with
      | .error e => (.error e, fs1)
      | .ok fs2 =>
        match fsChmod fs2 dst 0o755 with
        | .error e => (.error e, fs2)
        | .ok fs3 => (.ok (), fs3)

/-- The body of the `with tempfile.TemporaryDirectory()` block: download
the artifact into the working directory, then run the checksum,
extraction and placement steps, each short-circuiting the pipeline. -/
def installBody (env : Env) (plugin : Plugin) (ctx : InstallCtx)
    (install_path tmp : FsPath) (fs : FS) : Except Err Unit × FS :=
  match env.fetch ctx.download_url with
  | .error e => (.error e, fs)
  | .ok artifact =>
    match fsWriteFile fs (pathJoin tmp ctx.filename) artifact 0o644 with
    | .error e => (.error e, fs)
    | .ok fs1 =>
      andThen (checksumStage env plugin ctx tmp fs1) (fun fs2 =>
        andThen (extractStage env ctx tmp fs2) (fun fs3 =>
          placeStage plugin ctx install_path tmp fs3))

/-- `install_version(plugin_name, normalize_version, install_path)`:
resolve the context, create the scoped temporary directory, run the
pipeline body, and remove the temporary directory on every exit path
before returning or propagating the error. -/
def install_version (env : Env) (plugin : Plugin) (normalize_version : String)
    (install_path : FsPath) (fs0 : FS) : Except Err Unit × FS :=
  match installPrelude env plugin normalize_version with
  | .error e => (.error e, fs0)
  | .ok ctx =>
    let fs1 := fsMkdirTree fs0 tmpRoot
    let r := installBody env plugin ctx install_path tmpRoot fs1
    (r.1, fsRemoveTree r.2 tmpRoot)

/-- `{installRoot}/bin/{command}`, the default placement target. -/
def installedBinPath (install_path : FsPath) (plugin : Plugin) : FsPath :=
  pathJoin (install_path ++ ["bin"]) plugin.cmd

/-! ## `list_version`

The network call and the JSON decoding are external; the model starts
from the decoded array of release objects. -/

/-- One decoded release object: `{tag_name, published_at}`. -/
structure Release where
  tag_name : String
  published_at : String
deriving DecidableEq, Repr

def digitVal (c : Char) : Option Nat :=
  if c.isDigit then some (c.toNat - 48) else none

/-- The character at position `i` (fixed-width timestamp access). -/
def charAt (l : List Char) (i : Nat) : Char :=
  l.getD i ' '

/-- Two decimal digits starting at position `i`. -/
def num2At (l : List Char) (i : Nat) : Option Nat := do
  let a ← digitVal (charAt l i)
  let b ← digitVal (charAt l (i + 1))
  some (a * 10 + b)

/-- Four decimal digits starting at position `i`. -/
def num4At (l : List Char) (i : Nat) : Option Nat := do
  let a ← num2At l i
  let b ← num2At l (i + 2)
  some (a * 100 + b)

/-- `datetime.strptime(ts, "%Y-%m-%dT%H:%M:%SZ")`, encoded as a single
chronological key (seconds-like units under the field bounds the parser
enforces, so key order is publish-time order). -/
def parseTs (s : String) : Option Nat := do
  let l := s.data
  if l.length = 20 ∧ charAt l 4 = '-' ∧ charAt l 7 = '-' ∧ charAt l 10 = 'T' ∧
      charAt l 13 = ':' ∧ charAt l 16 = ':' ∧ charAt l 19 = 'Z' then
    let year ← num4At l 0
    let month ← num2At l 5
    let day ← num2At l 8
    let hour ← num2At l 11
    let minute ← num2At l 14
    let second ← num2At l 17
    if 1 ≤ month ∧ month ≤ 12 ∧ 1 ≤ day ∧ day ≤ 31 ∧ hour ≤ 23 ∧
        minute ≤ 59 ∧ second ≤ 59 then
      some (((((year * 12 + (month - 1)) * 31 + (day - 1)) * 24 + hour) * 60 +
        minute) * 60 + second)
    else none
  else none

/-- The sort key of a release (total on releases whose timestamp parses). -/
def keyOf (r : Release) : Nat :=
  (parseTs r.published_at).getD 0

/-- `sorted(releases, key=..., reverse=True)`: a stable descending sort
by parsed publish time (Python's `sorted` is stable; `insertionSort`
with this relation is its stable counterpart). -/
def sortedReleases (releases : List Release) : List Release :=
  List.insertionSort (fun a b => keyOf b ≤ keyOf a) releases

/-- The body of `list_version` after the release listing has been
fetched and decoded: sort descending by `strptime`-parsed publish time
(any unparseable timestamp raises), keep the 10 most recent, strip
leading `v`s from each tag, reverse. -/
def versionsOf (releases : List Release) : Except Err (List String) :=
  match releases.mapM (fun r => parseTs r.published_at) with
  | none => .error .upstreamFault
  | some _ =>
    .ok ((((sortedReleases releases).take 10).map
      (fun r => pyLstrip r.tag_name "v")).reverse)

/-- `list_version` joins the version list with newlines. -/
def list_version (releases : List Release) : Except Err String :=
  (versionsOf releases).map (fun vs => String.intercalate "\n" vs)

/-! ## The `fd` plugin descriptor (`lib/plugins/fd.py`) -/

def fdPlugin : Plugin :=
  { name := "fd", cmd := "fd", repo_name := "sharkdp/fd",
    filename_template := .lit "fd-{version}-{arch}-{platform}.tar.gz",
    platform_map := some [("darwin", "apple-darwin"), ("linux", "unknown-linux-gnu")],
    bin_path := .fn (fun kw => pyRstrip kw.filename ".tar.gz" ++ "/fd") }

/-- A concrete format context for exercising the `fd` descriptor's
computed binary path on a given resolved filename. -/
def fdKw (filename : String) : FormatKwargs :=
  { name := "fd", repo_name := "sharkdp/fd", version := "v1.2.3",
    normalize_version := "1.2.3", platform := "unknown-linux-gnu",
    arch := "x86_64", filename := filename, checksum_filename := "" }

/-- A fixed environment for concrete checksum-verification runs. -/
def envC2 : Env :=
  { system := "linux", machine := "x86_64",
    fetch := fun _ => .error .downloadFailed,
    sha256 := fun _ => "deadbeef",
    gunzip := fun _ => .error .gunzipFault,
    untar := fun _ => .error .tarFault }

/-- A filesystem holding a checksum manifest and an artifact. -/
def fsC2 : FS :=
  ⟨[(["m"], ⟨"deadbeef  tool.gz\n", 0o644⟩),
    (["tool.gz"], ⟨"bits", 0o644⟩)], [[]]⟩

/-- Ten mock releases with strictly increasing publish times whose
newest tag carries a doubled `v`. -/
def cexReleases : List Release :=
  [⟨"v0.1", "2024-01-01T00:00:00Z"⟩, ⟨"v0.2", "2024-01-02T00:00:00Z"⟩,
   ⟨"v0.3", "2024-01-03T00:00:00Z"⟩, ⟨"v0.4", "2024-01-04T00:00:00Z"⟩,
   ⟨"v0.5", "2024-01-05T00:00:00Z"⟩, ⟨"v0.6", "2024-01-06T00:00:00Z"⟩,
   ⟨"v0.7", "2024-01-07T00:00:00Z"⟩, ⟨"v0.8", "2024-01-08T00:00:00Z"⟩,
   ⟨"v0.9", "2024-01-09T00:00:00Z"⟩, ⟨"vv1.0", "2024-01-10T00:00:00Z"⟩]

/-! # Theorems -/

/-! ## Helper lemmas about the string primitives -/

theorem lstripChars_v (l : List Char) :
    lstripChars ("v".data) l = l.dropWhile (fun c => c = 'v') := by
  unfold lstripChars
  congr 1
  funext c
  show (List.contains ['v'] c) = decide (c = 'v')
  simp [List.contains]

theorem rstripChars_append_all (chars l t : List Char)
    (h : ∀ c ∈ t, chars.contains c = true) :
    rstripChars chars (l ++ t) = rstripChars chars l := by
  unfold rstripChars
  rw [List.reverse_append]
  have ht : t.reverse.dropWhile (fun c => chars.contains c) = [] := by
    refine List.dropWhile_eq_nil_iff.mpr ?_
    intro c hc
    exact h c (List.mem_reverse.mp hc)
  rw [List.dropWhile_append, ht]
  simp

theorem rstripChars_no_strip (chars l : List Char) (c : Char)
    (hlast : l.getLast? = some c) (hc : chars.contains c = false) :
    rstripChars chars l = l := by
  unfold rstripChars
  have hh : l.reverse.head? = some c := by rw [List.head?_reverse]; exact hlast
  match hrev : l.reverse with
  | [] => simp [hrev] at hh
  | d :: rest =>
    rw [hrev] at hh
    have hd : d = c := by simpa using hh
    rw [List.dropWhile_cons, hd, hc]
    simp only [Bool.false_eq_true, if_false]
    rw [← hd, ← hrev, List.reverse_reverse]

theorem rstripChars_shorter (chars l : List Char) (c : Char)
    (hlast : l.getLast? = some c) (hc : chars.contains c = true) :
    (rstripChars chars l).length < l.length := by
  unfold rstripChars
  have hh : l.reverse.head? = some c := by rw [List.head?_reverse]; exact hlast
  match hrev : l.reverse with
  | [] => simp [hrev] at hh
  | d :: rest =>
    rw [hrev] at hh
    have hd : d = c := by simpa using hh
    rw [List.dropWhile_cons, hd, hc]
    rw [if_pos rfl]
    simp only [List.length_reverse]
    have h1 : (rest.dropWhile (fun x => chars.contains x)).length ≤ rest.length :=
      (List.dropWhile_sublist (l := rest) (fun x => chars.contains x)).length_le
    have h2 : l.length = rest.length + 1 := by
      have := congrArg List.length hrev
      simpa [Nat.add_comm] using this
    omega

theorem string_mk_data (s : String) : (⟨s.data⟩ : String) = s := by
  cases s
  rfl

/-! ## C7: version normalisation -/

/-- C7 counterexample: the claim says a tag starting with `v` maps to the
tag with that one leading `v` removed (so `vv1` would map to `v1`), but
`get_normalize_version` uses `lstrip("v")`, which strips every leading
`v`: `vv1` maps to `1`. -/
theorem c7_counterexample :
    "vv1".data.head? = some 'v' ∧ get_normalize_version "vv1" = "1" ∧
      ("1" : String) ≠ "v1" := by
  refine ⟨rfl, ?_, by decide⟩
  rfl

/-- C7 (amended): version normalisation removes every leading `v`
character (Python `lstrip` semantics) and leaves a tag that does not
start with `v` unchanged. -/
theorem c7_normalize_strips_all_leading_v :
    (∀ s : String, get_normalize_version s = ⟨s.data.dropWhile (fun c => c = 'v')⟩) ∧
    (∀ s : String, s.data.head? ≠ some 'v' → get_normalize_version s = s) := by
  have h1 : ∀ s : String,
      get_normalize_version s = ⟨s.data.dropWhile (fun c => c = 'v')⟩ := by
    intro s
    show pyLstrip s "v" = _
    unfold pyLstrip
    rw [lstripChars_v]
  refine ⟨h1, ?_⟩
  intro s hs
  rw [h1 s]
  match hd : s.data with
  | [] => rw [List.dropWhile_nil, ← hd, string_mk_data]
  | c :: rest =>
    rw [hd] at hs
    have hc : ¬(c = 'v') := by
      intro h
      exact hs (by rw [h]; rfl)
    rw [List.dropWhile_cons, decide_eq_false hc]
    rw [if_neg (by simp), ← hd, string_mk_data]

/-- C7 witness: a tag that does not start with `v` is unchanged. -/
theorem c7_witness : get_normalize_version "1.2.3" = "1.2.3" :=
  c7_normalize_strips_all_leading_v.2 "1.2.3" (by decide)

/-! ## C10: the `fd` descriptor's computed binary path -/

/-- C10: the `fd` binary-path callback returns
`filename.rstrip(".tar.gz") + "/fd"`, i.e. it removes all trailing
characters drawn from the set `\x7b . t a r g z \x7d` (Python `rstrip`
character-set semantics, not literal suffix removal).  For a filename
`stem ++ ".tar.gz"` this agrees with plain suffix removal exactly when
the stem's last character is outside that set — which holds for the
`fd` platform tokens `apple-darwin` and `unknown-linux-gnu` — and
removes strictly more characters whenever the stem ends in a character
from the set. -/
theorem c10_fd_bin_path :
    (∀ kw : FormatKwargs,
      format_template fdPlugin.bin_path kw =
        .ok (pyRstrip kw.filename ".tar.gz" ++ "/fd")) ∧
    (∀ (s : String) (kw : FormatKwargs), kw.filename = s ++ ".tar.gz" →
      format_template fdPlugin.bin_path kw = .ok (pyRstrip s ".tar.gz" ++ "/fd")) ∧
    (∀ (s : String) (kw : FormatKwargs) (c : Char), kw.filename = s ++ ".tar.gz" →
      s.data.getLast? = some c → (".tar.gz".data.contains c) = false →
      format_template fdPlugin.bin_path kw = .ok (s ++ "/fd")) ∧
    (∀ (s : String) (c : Char), s.data.getLast? = some c →
      (".tar.gz".data.contains c) = true →
      (pyRstrip s ".tar.gz").data.length < s.data.length) ∧
    format_template fdPlugin.bin_path
        (fdKw "fd-v1.2.3-x86_64-unknown-linux-gnu.tar.gz") =
      .ok "fd-v1.2.3-x86_64-unknown-linux-gnu/fd" ∧
    format_template fdPlugin.bin_path
        (fdKw "fd-v1.2.3-x86_64-apple-darwin.tar.gz") =
      .ok "fd-v1.2.3-x86_64-apple-darwin/fd" := by
  have h1 : ∀ kw : FormatKwargs,
      format_template fdPlugin.bin_path kw =
        .ok (pyRstrip kw.filename ".tar.gz" ++ "/fd") := fun _ => rfl
  have habs : ∀ c ∈ ".tar.gz".data, (".tar.gz".data.contains c) = true := by decide
  have h2 : ∀ (s : String) (kw : FormatKwargs), kw.filename = s ++ ".tar.gz" →
      format_template fdPlugin.bin_path kw = .ok (pyRstrip s ".tar.gz" ++ "/fd") := by
    intro s kw hf
    rw [h1 kw, hf]
    unfold pyRstrip
    rw [show (s ++ ".tar.gz").data = s.data ++ ".tar.gz".data from rfl]
    rw [rstripChars_append_all _ _ _ habs]
  refine ⟨h1, h2, ?_, ?_, by decide, by decide⟩
  · intro s kw c hf hlast hc
    rw [h2 s kw hf]
    unfold pyRstrip
    rw [rstripChars_no_strip _ _ c hlast hc, string_mk_data]
  · intro s c hlast hc
    show (rstripChars (".tar.gz".data) s.data).length < s.data.length
    exact rstripChars_shorter _ _ c hlast hc

/-- C10 witness: evaluating the descriptor's callback on a resolved
Darwin filename yields exactly the suffix-stripped directory plus `/fd`. -/
theorem c10_witness :
    format_template fdPlugin.bin_path (fdKw "fd-v9.0-x86_64-apple-darwin.tar.gz") =
      .ok ("fd-v9.0-x86_64-apple-darwin" ++ "/fd") :=
  c10_fd_bin_path.2.2.1 "fd-v9.0-x86_64-apple-darwin" _ 'n' rfl (by decide) (by decide)

/-! ## C2: checksum verification -/

/-- C2: with the manifest and the artifact present on disk,
`verify_checksum` returns `True` iff the artifact's hex SHA-256 digest
(as produced by the external hashing tool) equals the first
whitespace-delimited token of the first manifest line containing the
artifact's filename as a substring; when no line contains the filename —
in particular when the manifest is empty — it raises
`Checksum not found` instead, and never returns `True`. -/
theorem c2_verify_checksum_iff
    (env : Env) (fs : FS) (file_path checksum_path : FsPath) (man art : FileEnt)
    (hman : fsFindFile fs checksum_path = some man)
    (hart : fsFindFile fs file_path = some art) :
    (verify_checksum env fs file_path checksum_path = .ok true ↔
      ∃ line tok rest,
        (pyLines man.content).find? (fun l => substrOf (pathName file_path) l) =
          some line ∧
        pySplitWs line = tok :: rest ∧ env.sha256 art.content = tok) ∧
    ((pyLines man.content).find? (fun l => substrOf (pathName file_path) l) = none →
      verify_checksum env fs file_path checksum_path = .error .checksumNotFound) ∧
    (man.content = "" →
      verify_checksum env fs file_path checksum_path = .error .checksumNotFound) := by
  have heq : verify_checksum env fs file_path checksum_path =
      (match (pyLines man.content).find? (fun l => substrOf (pathName file_path) l) with
        | none => .error .checksumNotFound
        | some line =>
          match pySplitWs line with
          | [] => .error .checksumIndex
          | tok :: _ => .ok (env.sha256 art.content == tok)) := by
    unfold verify_checksum
    rw [hman, hart]
  have hnone : (pyLines man.content).find? (fun l => substrOf (pathName file_path) l) = none →
      verify_checksum env fs file_path checksum_path = .error .checksumNotFound := by
    intro hfind
    rw [heq, hfind]
  refine ⟨?_, hnone, ?_⟩
  · constructor
    · intro hok
      rw [heq] at hok
      match hfind : (pyLines man.content).find? (fun l => substrOf (pathName file_path) l) with
      | none =>
        simp only [hfind] at hok
        exact absurd hok (by simp)
      | some line =>
        simp only [hfind] at hok
        match hsplit : pySplitWs line with
        | [] =>
          simp only [hsplit] at hok
          exact absurd hok (by simp)
        | tok :: rest =>
          simp only [hsplit] at hok
          refine ⟨line, tok, rest, rfl, hsplit, ?_⟩
          have hbe : (env.sha256 art.content == tok) = true := by
            cases hb : env.sha256 art.content == tok
            · rw [hb] at hok; exact absurd hok (by simp)
            · rfl
          exact beq_iff_eq.mp hbe
    · rintro ⟨line, tok, rest, hfind, hsplit, hsha⟩
      rw [heq]
      simp only [hfind, hsplit, hsha]
      simp
  · intro hempty
    apply hnone
    rw [hempty]
    rfl

/-- C2 witness: a manifest whose first matching line carries the
artifact's digest verifies successfully. -/
theorem c2_witness :
    fsFindFile fsC2 ["m"] = some ⟨"deadbeef  tool.gz\n", 0o644⟩ ∧
    fsFindFile fsC2 ["tool.gz"] = some ⟨"bits", 0o644⟩ ∧
    verify_checksum envC2 fsC2 ["tool.gz"] ["m"] = .ok true := by
  refine ⟨rfl, rfl, ?_⟩
  exact (c2_verify_checksum_iff envC2 fsC2 ["tool.gz"] ["m"]
      ⟨"deadbeef  tool.gz\n", 0o644⟩ ⟨"bits", 0o644⟩ rfl rfl).1.mpr
    ⟨"deadbeef  tool.gz\n", "deadbeef", ["tool.gz"], by decide, by decide, rfl⟩

/-! ## Helper lemmas about the filesystem model -/

theorem fsWriteFile_ok (fs : FS) (p : FsPath) (c : String) (m : Nat)
    (h : fs.dirs.contains p.dropLast = true) :
    fsWriteFile fs p c m = .ok { fs with files := (p, ⟨c, m⟩) :: fs.files } := by
  unfold fsWriteFile
  rw [if_pos h]

theorem fsWriteFile_files (fs fs' : FS) (p : FsPath) (c : String) (m : Nat)
    (h : fsWriteFile fs p c m = .ok fs') :
    fs'.files = (p, ⟨c, m⟩) :: fs.files ∧ fs'.dirs = fs.dirs := by
  unfold fsWriteFile at h
  by_cases hd : fs.dirs.contains p.dropLast = true
  · rw [if_pos hd] at h
    cases h
    exact ⟨rfl, rfl⟩
  · rw [if_neg hd] at h
    cases h

theorem fsFindFile_write_self (fs fs' : FS) (p : FsPath) (c : String) (m : Nat)
    (h : fsWriteFile fs p c m = .ok fs') :
    fsFindFile fs' p = some ⟨c, m⟩ := by
  obtain ⟨hf, -⟩ := fsWriteFile_files fs fs' p c m h
  unfold fsFindFile
  rw [hf]
  simp [List.lookup]

theorem fsFindFile_write_ne (fs fs' : FS) (p q : FsPath) (c : String) (m : Nat)
    (h : fsWriteFile fs p c m = .ok fs') (hne : q ≠ p) :
    fsFindFile fs' q = fsFindFile fs q := by
  obtain ⟨hf, -⟩ := fsWriteFile_files fs fs' p c m h
  unfold fsFindFile
  rw [hf]
  simp [List.lookup, beq_eq_false_iff_ne.mpr hne]

theorem fsFindFile_mkdirTree (fs : FS) (p q : FsPath) :
    fsFindFile (fsMkdirTree fs p) q = fsFindFile fs q := rfl

theorem fsMkdir_files (fs fs' : FS) (p : FsPath) (h : fsMkdir fs p = .ok fs') :
    fs'.files = fs.files := by
  unfold fsMkdir at h
  by_cases hd : fs.dirs.contains p.dropLast = true
  · rw [if_pos hd] at h
    cases h
    rfl
  · rw [if_neg hd] at h
    cases h

theorem fsChmod_self (fs fs' : FS) (p : FsPath) (m : Nat) (f : FileEnt)
    (hf : fsFindFile fs p = some f) (h : fsChmod fs p m = .ok fs') :
    fsFindFile fs' p = some ⟨f.content, m⟩ := by
  unfold fsChmod at h
  unfold fsFindFile at hf
  rw [hf] at h
  cases h
  unfold fsFindFile
  simp [List.lookup]

theorem fsChmod_ne (fs fs' : FS) (p q : FsPath) (m : Nat)
    (h : fsChmod fs p m = .ok fs') (hne : q ≠ p) :
    fsFindFile fs' q = fsFindFile fs q := by
  unfold fsChmod at h
  match hl : fs.files.lookup p with
  | none => rw [hl] at h; cases h
  | some f =>
    rw [hl] at h
    cases h
    unfold fsFindFile
    simp [List.lookup, beq_eq_false_iff_ne.mpr hne]

theorem lookup_filter_out {α : Type} [DecidableEq α]
    (files : List (List α × FileEnt)) (root q : List α)
    (hpre : root.isPrefixOf q = true) :
    (files.filter (fun e => !(root.isPrefixOf e.1))).lookup q = none := by
  induction files with
  | nil => rfl
  | cons e rest ih =>
    obtain ⟨k, v⟩ := e
    by_cases hk : root.isPrefixOf k = true
    · rw [List.filter_cons_of_neg (by simp [hk])]
      exact ih
    · rw [List.filter_cons_of_pos (by simp [hk])]
      have hne : (q == k) = false := by
        refine beq_eq_false_iff_ne.mpr ?_
        intro hqe
        rw [← hqe] at hk
        exact hk hpre
      simp only [List.lookup, hne]
      exact ih

theorem lookup_filter_keep {α : Type} [DecidableEq α]
    (files : List (List α × FileEnt)) (root q : List α)
    (hpre : root.isPrefixOf q = false) :
    (files.filter (fun e => !(root.isPrefixOf e.1))).lookup q = files.lookup q := by
  induction files with
  | nil => rfl
  | cons e rest ih =>
    obtain ⟨k, v⟩ := e
    by_cases hq : q = k
    · subst hq
      rw [List.filter_cons_of_pos (by simp [hpre])]
      simp only [List.lookup, beq_self_eq_true]
    · have hne : (q == k) = false := beq_eq_false_iff_ne.mpr hq
      by_cases hk : root.isPrefixOf k = true
      · rw [List.filter_cons_of_neg (by simp [hk])]
        rw [ih]
        simp only [List.lookup, hne]
      · rw [List.filter_cons_of_pos (by simp [hk])]
        simp only [List.lookup, hne]
        exact ih

theorem fsRemoveTree_under (fs : FS) (root q : FsPath)
    (hpre : root.isPrefixOf q = true) :
    fsFindFile (fsRemoveTree fs root) q = none := by
  unfold fsRemoveTree fsFindFile
  exact lookup_filter_out fs.files root q hpre

theorem fsRemoveTree_outside (fs : FS) (root q : FsPath)
    (hpre : root.isPrefixOf q = false) :
    fsFindFile (fsRemoveTree fs root) q = fsFindFile fs q := by
  unfold fsRemoveTree fsFindFile
  exact lookup_filter_keep fs.files root q hpre

theorem fsRemoveTree_dirs (fs : FS) (root q : FsPath)
    (hpre : root.isPrefixOf q = true) :
    q ∉ (fsRemoveTree fs root).dirs := by
  unfold fsRemoveTree
  intro hmem
  have := List.of_mem_filter hmem
  rw [hpre] at this
  exact absurd this (by simp)

theorem self_mem_pathPrefixes (p : FsPath) : p ∈ pathPrefixes p := by
  unfold pathPrefixes
  refine List.mem_map.mpr ⟨p.length, ?_, List.take_length p⟩
  exact List.mem_range.mpr (Nat.lt_succ_self _)

theorem fsMkdirTree_dirs_mem (fs : FS) (p q : FsPath) (h : q ∈ pathPrefixes p) :
    q ∈ (fsMkdirTree fs p).dirs := by
  unfold fsMkdirTree
  by_cases hc : fs.dirs.contains q = true
  · exact List.mem_append_right _ (List.elem_iff.mp hc)
  · refine List.mem_append_left _ ?_
    refine List.mem_filter.mpr ⟨h, ?_⟩
    simp only [Bool.not_eq_true']
    cases hb : fs.dirs.contains q
    · rfl
    · exact absurd hb hc

theorem fsMkdirTree_dirs_super (fs : FS) (p q : FsPath) (h : q ∈ fs.dirs) :
    q ∈ (fsMkdirTree fs p).dirs :=
  List.mem_append_right _ h

theorem fsWriteFile_after_mkdirTree (fs : FS) (p : FsPath) (c : String) (m : Nat) :
    fsWriteFile (fsMkdirTree fs p.dropLast) p c m =
      .ok { fsMkdirTree fs p.dropLast with
              files := (p, ⟨c, m⟩) :: (fsMkdirTree fs p.dropLast).files } := by
  apply fsWriteFile_ok
  exact List.elem_iff.mpr (fsMkdirTree_dirs_mem fs p.dropLast p.dropLast
    (self_mem_pathPrefixes _))

/-! ## Helper lemmas about tar member-name resolution -/

theorem tarResolveGo_inv (P : String → Prop) :
    ∀ (l acc comps : List String), (∀ x ∈ l, P x) → (∀ x ∈ acc, P x) →
      tarResolveGo l acc = .ok comps → ∀ x ∈ comps, P x := by
  intro l
  induction l with
  | nil =>
    intro acc comps _ hacc h x hx
    unfold tarResolveGo at h
    cases h
    exact hacc x (List.mem_reverse.mp hx)
  | cons c rest ih =>
    intro acc comps hl hacc h x hx
    unfold tarResolveGo at h
    by_cases hc : c = ".."
    · rw [if_pos hc] at h
      match acc, hacc with
      | [], _ => cases h
      | a :: acc2, hacc =>
        exact ih acc2 comps (fun y hy => hl y (List.mem_cons_of_mem _ hy))
          (fun y hy => hacc y (List.mem_cons_of_mem _ hy)) h x hx
    · rw [if_neg hc] at h
      refine ih (c :: acc) comps (fun y hy => hl y (List.mem_cons_of_mem _ hy)) ?_ h x hx
      intro y hy
      rcases List.mem_cons.mp hy with hy | hy
      · exact hy ▸ hl c (List.mem_cons_self _ _)
      · exact hacc y hy

theorem tarResolveGo_no_updir :
    ∀ (l acc comps : List String), (∀ x ∈ acc, x ≠ "..") →
      tarResolveGo l acc = .ok comps → ∀ x ∈ comps, x ≠ ".." := by
  intro l
  induction l with
  | nil =>
    intro acc comps hacc h x hx
    unfold tarResolveGo at h
    cases h
    exact hacc x (List.mem_reverse.mp hx)
  | cons c rest ih =>
    intro acc comps hacc h x hx
    unfold tarResolveGo at h
    by_cases hc : c = ".."
    · rw [if_pos hc] at h
      match acc, hacc with
      | [], _ => cases h
      | a :: acc2, hacc =>
        exact ih acc2 comps (fun y hy => hacc y (List.mem_cons_of_mem _ hy)) h x hx
    · rw [if_neg hc] at h
      refine ih (c :: acc) comps ?_ h x hx
      intro y hy
      rcases List.mem_cons.mp hy with hy | hy
      · exact hy ▸ hc
      · exact hacc y hy

theorem splitPathStr_mem (s : String) (x : String) (hx : x ∈ splitPathStr s) :
    x ≠ "" ∧ x ≠ "." := by
  unfold splitPathStr at hx
  obtain ⟨l, hl, hmk⟩ := List.mem_map.mp hx
  obtain ⟨-, hcond⟩ := List.mem_filter.mp hl
  have h1 : (l == ([] : List Char)) = false := by
    cases hb : l == ([] : List Char)
    · rfl
    · rw [hb] at hcond; exact absurd hcond (by simp)
  have h2 : (l == ['.']) = false := by
    cases hb : l == ['.']
    · rfl
    · rw [hb] at hcond; simp [hb] at hcond
  constructor
  · intro he
    rw [← hmk] at he
    have : l = [] := congrArg String.data he
    exact absurd (beq_iff_eq.mpr this) (by simp [h1])
  · intro he
    rw [← hmk] at he
    have : l = ['.'] := congrArg String.data he
    exact absurd (beq_iff_eq.mpr this) (by simp [h2])

theorem tarResolveName_clean (name : String) (comps : FsPath)
    (h : tarResolveName name = .ok comps) :
    ".." ∉ comps ∧ "." ∉ comps ∧ "" ∉ comps := by
  unfold tarResolveName at h
  have hclean : ∀ x ∈ comps, x ≠ "" ∧ x ≠ "." :=
    tarResolveGo_inv (fun x => x ≠ "" ∧ x ≠ ".") (splitPathStr name) [] comps
      (fun x hx => splitPathStr_mem name x hx) (by simp) h
  have hup : ∀ x ∈ comps, x ≠ ".." :=
    tarResolveGo_no_updir (splitPathStr name) [] comps (by simp) h
  exact ⟨fun hm => hup _ hm rfl, fun hm => (hclean _ hm).2 rfl,
    fun hm => (hclean _ hm).1 rfl⟩

theorem splitPathStr_slash (s : String) :
    splitPathStr ("/" ++ s) = splitPathStr s := by
  have h : splitBy (fun c => c = '/') (("/" ++ s).data) =
      [] :: splitBy (fun c => c = '/') s.data := by
    show splitByGo _ ('/' :: s.data) [] = [] :: splitByGo _ s.data []
    conv_lhs => rw [splitByGo.eq_def]
    simp
  unfold splitPathStr
  rw [h, List.filter_cons_of_neg (by decide)]

theorem tarResolveName_strip_slash (s : String) :
    tarResolveName ("/" ++ s) = tarResolveName s := by
  unfold tarResolveName
  rw [splitPathStr_slash]

/-! ## Helper lemmas about tar extraction -/

theorem tarExtractAll_outside (entries : List TarEntry) (dest : FsPath) (fs : FS)
    (q : FsPath) (hq : ¬ dest <+: q) :
    fsFindFile (tarExtractAll entries dest fs).2 q = fsFindFile fs q := by
  induction entries generalizing fs with
  | nil => rfl
  | cons e rest ih =>
    unfold tarExtractAll
    match hres : tarResolveName e.name with
    | .error er => rfl
    | .ok comps =>
      simp only
      rw [fsWriteFile_after_mkdirTree]
      simp only
      have hne : q ≠ dest ++ comps := by
        intro he
        exact hq (he ▸ List.prefix_append dest comps)
      have hw := fsFindFile_write_ne (fsMkdirTree fs (dest ++ comps).dropLast) _
        (dest ++ comps) q e.content e.mode (fsWriteFile_after_mkdirTree _ _ _ _) hne
      rw [ih _]
      rw [hw]
      rfl

theorem tarExtractAll_abort (entries : List TarEntry) (dest : FsPath) (fs : FS)
    (e : TarEntry) (er : Err) (hmem : e ∈ entries)
    (hres : tarResolveName e.name = .error er) :
    ∃ er2, (tarExtractAll entries dest fs).1 = .error er2 := by
  induction entries generalizing fs with
  | nil => cases hmem
  | cons e' rest ih =>
    unfold tarExtractAll
    rcases List.mem_cons.mp hmem with he | he
    · subst he
      rw [hres]
      exact ⟨er, rfl⟩
    · match hres' : tarResolveName e'.name with
      | .error er' => exact ⟨er', rfl⟩
      | .ok comps =>
        simp only
        rw [fsWriteFile_after_mkdirTree]
        simp only
        exact ih _ he

/-! ## C6: tar extraction cannot escape the destination -/

/-- C6 counterexample: the claim says archive members with absolute
paths are not extracted, but the data filter strips the leading slash
and extracts the member inside the destination: a `/evil` member
extracts successfully and lands at `dest/evil`. -/
theorem c6_counterexample :
    (tarExtractAll [⟨"/evil", "X", 0o644⟩] ["tmpdir", "extract"]
        ⟨[], [[]]⟩).1 = .ok () ∧
    fsFindFile (tarExtractAll [⟨"/evil", "X", 0o644⟩] ["tmpdir", "extract"]
        ⟨[], [[]]⟩).2 ["tmpdir", "extract", "evil"] = some ⟨"X", 0o644⟩ := by
  exact ⟨rfl, rfl⟩

/-- C6 (amended): extracting a `.tar.gz` artifact never writes an entry
outside the destination directory: every path outside the destination
is left exactly as it was (whether extraction succeeds or aborts), a
member name the data filter accepts resolves to clean components (no
`..`, `.` or empty component remains, so the written path cannot climb
out of the destination), a member whose `..` components would climb
above the destination root aborts the extraction with an error, and an
absolute member name is stripped of its leading slash — it is extracted
*inside* the destination rather than refused. -/
theorem c6_tar_no_escape :
    (∀ (entries : List TarEntry) (dest : FsPath) (fs : FS) (q : FsPath),
      ¬ dest <+: q →
      fsFindFile (tarExtractAll entries dest fs).2 q = fsFindFile fs q) ∧
    (∀ (name : String) (comps : FsPath), tarResolveName name = .ok comps →
      ".." ∉ comps ∧ "." ∉ comps ∧ "" ∉ comps) ∧
    (∀ (entries : List TarEntry) (dest : FsPath) (fs : FS) (e : TarEntry) (er : Err),
      e ∈ entries → tarResolveName e.name = .error er →
      ∃ er2, (tarExtractAll entries dest fs).1 = .error er2) ∧
    (∀ s : String, tarResolveName ("/" ++ s) = tarResolveName s) :=
  ⟨tarExtractAll_outside, tarResolveName_clean, tarExtractAll_abort,
    tarResolveName_strip_slash⟩

/-- C6 witness: a traversal member `../evil` aborts extraction, and a
path outside the destination is untouched by a normal extraction. -/
theorem c6_witness :
    (¬ (["tmpdir", "extract"] : FsPath) <+: ["inst", "bin"]) ∧
    fsFindFile (tarExtractAll [⟨"fd-v1/fd", "ELF", 0o755⟩]
        ["tmpdir", "extract"] ⟨[], [[]]⟩).2 ["inst", "bin"] =
      fsFindFile (⟨[], [[]]⟩ : FS) ["inst", "bin"] ∧
    (∃ er2, (tarExtractAll [⟨"../evil", "X", 0o644⟩]
        ["tmpdir", "extract"] ⟨[], [[]]⟩).1 = .error er2) := by
  have hnp : ¬ (["tmpdir", "extract"] : FsPath) <+: ["inst", "bin"] := by decide
  refine ⟨hnp, ?_, ?_⟩
  · exact c6_tar_no_escape.1 _ _ _ _ hnp
  · exact c6_tar_no_escape.2.2.1 [⟨"../evil", "X", 0o644⟩] ["tmpdir", "extract"]
      ⟨[], [[]]⟩ ⟨"../evil", "X", 0o644⟩ .tarEscape (List.mem_singleton.mpr rfl)
      (by decide)

theorem tarExtractAll_untouched (entries : List TarEntry) (dest : FsPath)
    (fs : FS) (q : FsPath)
    (hq : ∀ e ∈ entries, ∀ comps, tarResolveName e.name = .ok comps →
      dest ++ comps ≠ q) :
    fsFindFile (tarExtractAll entries dest fs).2 q = fsFindFile fs q := by
  induction entries generalizing fs with
  | nil => rfl
  | cons e rest ih =>
    unfold tarExtractAll
    match hres : tarResolveName e.name with
    | .error er => rfl
    | .ok comps =>
      simp only
      rw [fsWriteFile_after_mkdirTree]
      simp only
      rw [ih _ (fun e' he' => hq e' (List.mem_cons_of_mem _ he'))]
      have hne : q ≠ dest ++ comps :=
        fun he => hq e (List.mem_cons_self _ _) comps hres he.symm
      rw [fsFindFile_write_ne _ _ (dest ++ comps) q e.content e.mode
        (fsWriteFile_after_mkdirTree _ _ _ _) hne]
      rfl

theorem tarExtractAll_places (entries : List TarEntry) (dest : FsPath) (fs : FS)
    (hdist : entries.Pairwise
      (fun e1 e2 => tarResolveName e1.name ≠ tarResolveName e2.name))
    (hok : (tarExtractAll entries dest fs).1 = .ok ()) :
    ∀ e ∈ entries, ∀ comps, tarResolveName e.name = .ok comps →
      fsFindFile (tarExtractAll entries dest fs).2 (dest ++ comps) =
        some ⟨e.content, e.mode⟩ := by
  induction entries generalizing fs with
  | nil => intro e he; cases he
  | cons e' rest ih =>
    intro e he comps hres
    rcases List.pairwise_cons.mp hdist with ⟨hhead, htail⟩
    rcases List.mem_cons.mp he with he | he
    · subst he
      unfold tarExtractAll
      rw [hres]
      simp only
      rw [fsWriteFile_after_mkdirTree]
      simp only
      rw [tarExtractAll_untouched]
      · exact fsFindFile_write_self _ _ (dest ++ comps) e.content e.mode
          (fsWriteFile_after_mkdirTree _ _ _ _)
      · intro e2 he2 comps2 hres2 heq
        have hcomps : comps2 = comps := List.append_cancel_left heq
        exact hhead e2 he2 (by rw [hres, hres2, hcomps])
    · unfold tarExtractAll at hok ⊢
      match hres' : tarResolveName e'.name with
      | .error er =>
        rw [hres'] at hok
        exact absurd hok (by simp)
      | .ok comps' =>
        rw [hres'] at hok
        simp only at hok ⊢
        rw [fsWriteFile_after_mkdirTree] at hok ⊢
        simp only at hok ⊢
        exact ih _ htail hok e he comps hres

/-! ## C4: archive-format dispatch -/

/-- C4: extraction dispatches purely on the artifact's filename suffix.
A `.tar.gz` filename is handed to the tar extractor, which on success
places every archive member at its resolved relative path below the
destination directory; a `.gz` (but not `.tar.gz`) filename is
decompressed as a single gzip stream directly to
`destinationDir/plannedBinaryRelativePath`, creating the parent
directories; any other suffix fails with `Unsupported file type` leaving
the filesystem unchanged, and no continuation (in particular not the
placement step) runs after it. -/
theorem c4_extract_dispatch :
    (∀ (env : Env) (filename bin_path : String) (dp ep : FsPath) (fs : FS)
        (f : FileEnt) (entries : List TarEntry),
      endsWithS filename ".tar.gz" = true →
      fsFindFile fs dp = some f →
      env.untar f.content = .ok entries →
      extractArtifact env filename bin_path dp ep fs = tarExtractAll entries ep fs) ∧
    (∀ (entries : List TarEntry) (dest : FsPath) (fs : FS),
      entries.Pairwise
        (fun e1 e2 => tarResolveName e1.name ≠ tarResolveName e2.name) →
      (tarExtractAll entries dest fs).1 = .ok () →
      ∀ e ∈ entries, ∀ comps, tarResolveName e.name = .ok comps →
        fsFindFile (tarExtractAll entries dest fs).2 (dest ++ comps) =
          some ⟨e.content, e.mode⟩) ∧
    (∀ (env : Env) (filename bin_path : String) (dp ep : FsPath) (fs : FS)
        (f : FileEnt) (g : String),
      endsWithS filename ".tar.gz" = false →
      endsWithS filename ".gz" = true →
      fsFindFile fs dp = some f →
      env.gunzip f.content = .ok g →
      ∃ fs2, extractArtifact env filename bin_path dp ep fs = (.ok (), fs2) ∧
        fsFindFile fs2 (pathJoin ep bin_path) = some ⟨g, 0o644⟩ ∧
        ∀ q ∈ pathPrefixes (pathJoin ep bin_path).dropLast, q ∈ fs2.dirs) ∧
    (∀ (env : Env) (filename bin_path : String) (dp ep : FsPath) (fs : FS)
        (k : FS → Except Err Unit × FS),
      endsWithS filename ".tar.gz" = false →
      endsWithS filename ".gz" = false →
      andThen (extractArtifact env filename bin_path dp ep fs) k =
        (.error .unsupportedFormat, fs)) := by
  refine ⟨?_, tarExtractAll_places, ?_, ?_⟩
  · intro env filename bin_path dp ep fs f entries h1 hfind huntar
    unfold extractArtifact
    rw [if_pos h1]
    simp only [hfind, huntar]
  · intro env filename bin_path dp ep fs f g h1 h2 hfind hgun
    unfold extractArtifact
    rw [if_neg (by simp [h1]), if_pos h2]
    simp only
    have hfind1 : fsFindFile
        (fsMkdirTree fs (pathJoin ep bin_path).dropLast) dp = some f := hfind
    rw [hfind1]
    simp only [hgun]
    rw [fsWriteFile_after_mkdirTree]
    simp only
    refine ⟨_, rfl, ?_, ?_⟩
    · exact fsFindFile_write_self _ _ (pathJoin ep bin_path) g 0o644
        (fsWriteFile_after_mkdirTree _ _ _ _)
    · intro q hq
      have hdirs := fsWriteFile_files (fsMkdirTree fs (pathJoin ep bin_path).dropLast)
        _ (pathJoin ep bin_path) g 0o644 (fsWriteFile_after_mkdirTree _ _ _ _)
      rw [hdirs.2]
      exact fsMkdirTree_dirs_mem fs _ q hq
  · intro env filename bin_path dp ep fs k h1 h2
    unfold extractArtifact
    rw [if_neg (by simp [h1]), if_neg (by simp [h2])]
    rfl

/-- C4 witness: a `.gz` (non-tar) artifact is decompressed straight to
the planned binary path below the destination. -/
theorem c4_witness :
    ∃ fs2, extractArtifact
        ⟨"linux", "x86_64", fun _ => .error .downloadFailed, fun _ => "d",
         fun _ => .ok "BIN", fun _ => .error .tarFault⟩
        "tool.gz" "sub/tool" ["tmpdir", "tool.gz"] ["tmpdir", "extract"]
        ⟨[(["tmpdir", "tool.gz"], ⟨"gzbits", 0o644⟩)], [[], ["tmpdir"]]⟩ =
      (.ok (), fs2) ∧
      fsFindFile fs2 ["tmpdir", "extract", "sub", "tool"] = some ⟨"BIN", 0o644⟩ := by
  obtain ⟨fs2, heq, hfind, -⟩ := c4_extract_dispatch.2.2.1
    ⟨"linux", "x86_64", fun _ => .error .downloadFailed, fun _ => "d",
     fun _ => .ok "BIN", fun _ => .error .tarFault⟩
    "tool.gz" "sub/tool" ["tmpdir", "tool.gz"] ["tmpdir", "extract"]
    ⟨[(["tmpdir", "tool.gz"], ⟨"gzbits", 0o644⟩)], [[], ["tmpdir"]]⟩
    ⟨"gzbits", 0o644⟩ "BIN" (by decide) (by decide) rfl rfl
  exact ⟨fs2, heq, by
    have : pathJoin ["tmpdir", "extract"] "sub/tool" =
        ["tmpdir", "extract", "sub", "tool"] := by decide
    rw [← this]
    exact hfind⟩

theorem fsChmod_dirs (fs fs' : FS) (p : FsPath) (m : Nat)
    (h : fsChmod fs p m = .ok fs') : fs'.dirs = fs.dirs := by
  unfold fsChmod at h
  match hl : fs.files.lookup p with
  | none => rw [hl] at h; cases h
  | some f => rw [hl] at h; cases h; rfl

theorem placeStage_ok_lookup (plugin : Plugin) (ctx : InstallCtx)
    (ip tmp : FsPath) (fs fs3 : FS)
    (hcc : plugin.custom_copy = none)
    (h : placeStage plugin ctx ip tmp fs = (.ok (), fs3)) :
    ∃ f, fsFindFile fs (pathJoin (tmp ++ ["extract"]) ctx.bin_path) = some f ∧
      fsFindFile fs3 (pathJoin (ip ++ ["bin"]) plugin.cmd) =
        some ⟨f.content, 0o755⟩ := by
  unfold placeStage at h
  rw [hcc] at h
  match hsrc : fsFindFile fs (pathJoin (tmp ++ ["extract"]) ctx.bin_path) with
  | none =>
    simp only [hsrc] at h
    exact absurd (congrArg Prod.fst h) (by simp)
  | some f =>
    simp only [hsrc] at h
    match hw : fsWriteFile (fsMkdirTree fs (ip ++ ["bin"]))
        (pathJoin (ip ++ ["bin"]) plugin.cmd) f.content f.mode with
    | .error e =>
      rw [hw] at h
      exact absurd (congrArg Prod.fst h) (by simp)
    | .ok fs2 =>
      rw [hw] at h
      simp only at h
      match hch : fsChmod fs2 (pathJoin (ip ++ ["bin"]) plugin.cmd) 0o755 with
      | .error e =>
        rw [hch] at h
        exact absurd (congrArg Prod.fst h) (by simp)
      | .ok fs3' =>
        rw [hch] at h
        simp only at h
        have hfs3 : fs3' = fs3 := congrArg Prod.snd h
        subst hfs3
        refine ⟨f, rfl, ?_⟩
        exact fsChmod_self fs2 fs3' _ 0o755 ⟨f.content, f.mode⟩
          (fsFindFile_write_self _ _ _ f.content f.mode hw) hch

theorem installBody_ok (env : Env) (plugin : Plugin) (ctx : InstallCtx)
    (ip tmp : FsPath) (fs : FS)
    (h : (installBody env plugin ctx ip tmp fs).1 = .ok ()) :
    ∃ fsPre, placeStage plugin ctx ip tmp fsPre =
      (.ok (), (installBody env plugin ctx ip tmp fs).2) := by
  unfold installBody at h ⊢
  match hf : env.fetch ctx.download_url with
  | .error e =>
    rw [hf] at h
    exact absurd h (by simp)
  | .ok artifact =>
    simp only [hf] at h ⊢
    match hw : fsWriteFile fs (pathJoin tmp ctx.filename) artifact 0o644 with
    | .error e =>
      rw [hw] at h
      exact absurd h (by simp)
    | .ok fs1 =>
      simp only [hw] at h ⊢
      unfold andThen at h ⊢
      revert h
      match hcs : checksumStage env plugin ctx tmp fs1 with
      | (.error e, fsx) =>
        intro h
        simp only at h
        exact absurd h (by simp)
      | (.ok u, fsx) =>
        intro h
        cases u
        simp only at h ⊢
        revert h
        match hex : extractStage env ctx tmp fsx with
        | (.error e, fsy) =>
          intro h
          simp only at h
          exact absurd h (by simp)
        | (.ok u, fsy) =>
          intro h
          cases u
          simp only at h ⊢
          refine ⟨fsy, ?_⟩
          exact Prod.ext h rfl

/-! ## C5: default placement -/

/-- C5: with no custom placement routine, placement fails with
`Binary file not found` (leaving the filesystem unchanged) when the
resolved binary path is missing under the extraction root; otherwise it
creates `installRoot/bin`, copies the binary there under the
descriptor's command name with identical content, and sets the
installed file's mode to `0o755`; consequently every successful
default-placement install leaves a mode-`0o755` file at
`installRoot/bin/{command}`. -/
theorem c5_default_placement :
    (∀ (plugin : Plugin) (ctx : InstallCtx) (ip tmp : FsPath) (fs : FS),
      plugin.custom_copy = none →
      fsFindFile fs (pathJoin (tmp ++ ["extract"]) ctx.bin_path) = none →
      placeStage plugin ctx ip tmp fs = (.error .binaryNotFound, fs)) ∧
    (∀ (plugin : Plugin) (ctx : InstallCtx) (ip tmp : FsPath) (fs : FS) (f : FileEnt),
      plugin.custom_copy = none →
      fsFindFile fs (pathJoin (tmp ++ ["extract"]) ctx.bin_path) = some f →
      splitPathStr plugin.cmd = [plugin.cmd] →
      pyIsAbs plugin.cmd = false →
      ∃ fs3, placeStage plugin ctx ip tmp fs = (.ok (), fs3) ∧
        fsFindFile fs3 (pathJoin (ip ++ ["bin"]) plugin.cmd) =
          some ⟨f.content, 0o755⟩ ∧
        (ip ++ ["bin"]) ∈ fs3.dirs) ∧
    (∀ (env : Env) (plugin : Plugin) (nv : String) (ip : FsPath) (fs0 : FS),
      plugin.custom_copy = none →
      ¬ tmpRoot <+: pathJoin (ip ++ ["bin"]) plugin.cmd →
      (install_version env plugin nv ip fs0).1 = .ok () →
      ∃ g, fsFindFile (install_version env plugin nv ip fs0).2
          (pathJoin (ip ++ ["bin"]) plugin.cmd) = some g ∧ g.mode = 0o755) := by
  refine ⟨?_, ?_, ?_⟩
  · intro plugin ctx ip tmp fs hcc hsrc
    unfold placeStage
    rw [hcc]
    simp only [hsrc]
  · intro plugin ctx ip tmp fs f hcc hsrc hsplit habs
    unfold placeStage
    rw [hcc]
    simp only [hsrc]
    have hdst : pathJoin (ip ++ ["bin"]) plugin.cmd = (ip ++ ["bin"]) ++ [plugin.cmd] := by
      unfold pathJoin
      rw [if_neg (by simp [habs]), hsplit]
    have hdrop : (pathJoin (ip ++ ["bin"]) plugin.cmd).dropLast = ip ++ ["bin"] := by
      rw [hdst]
      exact List.dropLast_concat
    have hw : fsWriteFile (fsMkdirTree fs (ip ++ ["bin"]))
        (pathJoin (ip ++ ["bin"]) plugin.cmd) f.content f.mode =
        .ok { fsMkdirTree fs (ip ++ ["bin"]) with
                files := (pathJoin (ip ++ ["bin"]) plugin.cmd, ⟨f.content, f.mode⟩) ::
                  (fsMkdirTree fs (ip ++ ["bin"])).files } := by
      apply fsWriteFile_ok
      rw [hdrop]
      exact List.elem_iff.mpr (fsMkdirTree_dirs_mem fs _ _ (self_mem_pathPrefixes _))
    rw [hw]
    simp only
    have hlook : fsFindFile { fsMkdirTree fs (ip ++ ["bin"]) with
        files := (pathJoin (ip ++ ["bin"]) plugin.cmd, ⟨f.content, f.mode⟩) ::
          (fsMkdirTree fs (ip ++ ["bin"])).files }
        (pathJoin (ip ++ ["bin"]) plugin.cmd) = some ⟨f.content, f.mode⟩ := by
      unfold fsFindFile
      simp [List.lookup]
    have hch : fsChmod { fsMkdirTree fs (ip ++ ["bin"]) with
        files := (pathJoin (ip ++ ["bin"]) plugin.cmd, ⟨f.content, f.mode⟩) ::
          (fsMkdirTree fs (ip ++ ["bin"])).files }
        (pathJoin (ip ++ ["bin"]) plugin.cmd) 0o755 =
        .ok { fsMkdirTree fs (ip ++ ["bin"]) with
                files := (pathJoin (ip ++ ["bin"]) plugin.cmd, ⟨f.content, 0o755⟩) ::
                  (pathJoin (ip ++ ["bin"]) plugin.cmd, ⟨f.content, f.mode⟩) ::
                  (fsMkdirTree fs (ip ++ ["bin"])).files } := by
      unfold fsChmod
      unfold fsFindFile at hlook
      rw [hlook]
    rw [hch]
    simp only
    refine ⟨_, rfl, ?_, ?_⟩
    · unfold fsFindFile
      simp [List.lookup]
    · exact fsMkdirTree_dirs_mem fs _ _ (self_mem_pathPrefixes _)
  · intro env plugin nv ip fs0 hcc hip hsucc
    unfold install_version at hsucc ⊢
    revert hsucc
    match hpre : installPrelude env plugin nv with
    | .error e =>
      intro hsucc
      simp only at hsucc
      exact absurd hsucc (by simp)
    | .ok ctx =>
      intro hsucc
      simp only at hsucc ⊢
      obtain ⟨fsPre, hplace⟩ :=
        installBody_ok env plugin ctx ip tmpRoot (fsMkdirTree fs0 tmpRoot) hsucc
      obtain ⟨f, hsrc, hdst⟩ :=
        placeStage_ok_lookup plugin ctx ip tmpRoot fsPre _ hcc hplace
      have hb : tmpRoot.isPrefixOf (pathJoin (ip ++ ["bin"]) plugin.cmd) = false := by
        cases hbb : tmpRoot.isPrefixOf (pathJoin (ip ++ ["bin"]) plugin.cmd)
        · rfl
        · exact absurd (List.isPrefixOf_iff_prefix.mp hbb) hip
      refine ⟨⟨f.content, 0o755⟩, ?_, rfl⟩
      rw [fsRemoveTree_outside _ _ _ hb]
      exact hdst

/-- C5 witness: a concrete default placement copies the extracted
binary to `inst/bin/fd` with mode `0o755`. -/
theorem c5_witness :
    ∃ fs3, placeStage fdPlugin
        ⟨fdKw "fd-v1.tar.gz", "fd-v1.tar.gz", "", "fd-v1/fd",
         "https://github.com/sharkdp/fd/releases/download/v1.2.3/fd-v1.tar.gz"⟩
        ["inst"] tmpRoot
        ⟨[(["tmpdir", "extract", "fd-v1", "fd"], ⟨"ELF", 0o644⟩)],
         [[], ["tmpdir"], ["tmpdir", "extract"]]⟩ = (.ok (), fs3) ∧
      fsFindFile fs3 ["inst", "bin", "fd"] = some ⟨"ELF", 0o755⟩ := by
  obtain ⟨fs3, heq, hfind, -⟩ := c5_default_placement.2.1 fdPlugin
    ⟨fdKw "fd-v1.tar.gz", "fd-v1.tar.gz", "", "fd-v1/fd",
     "https://github.com/sharkdp/fd/releases/download/v1.2.3/fd-v1.tar.gz"⟩
    ["inst"] tmpRoot
    ⟨[(["tmpdir", "extract", "fd-v1", "fd"], ⟨"ELF", 0o644⟩)],
     [[], ["tmpdir"], ["tmpdir", "extract"]]⟩
    ⟨"ELF", 0o644⟩ rfl (by decide) (by decide) (by decide)
  refine ⟨fs3, heq, ?_⟩
  have : pathJoin (["inst"] ++ ["bin"]) fdPlugin.cmd = ["inst", "bin", "fd"] := by decide
  rw [← this]
  exact hfind

theorem fsWriteFile_error (fs : FS) (p : FsPath) (c : String) (m : Nat) (e : Err)
    (h : fsWriteFile fs p c m = .error e) : e = .fsFault := by
  unfold fsWriteFile at h
  by_cases hd : fs.dirs.contains p.dropLast = true
  · rw [if_pos hd] at h; cases h
  · rw [if_neg hd] at h; cases h; rfl

theorem fsChmod_error (fs : FS) (p : FsPath) (m : Nat) (e : Err)
    (h : fsChmod fs p m = .error e) : e = .fsFault := by
  unfold fsChmod at h
  match hl : fs.files.lookup p with
  | none => rw [hl] at h; cases h; rfl
  | some f => rw [hl] at h; cases h

theorem extractArtifact_gz_ok (env : Env) (filename bin_path : String)
    (dp ep : FsPath) (fs fs' : FS)
    (h1 : endsWithS filename ".tar.gz" = false)
    (h2 : endsWithS filename ".gz" = true)
    (hex : extractArtifact env filename bin_path dp ep fs = (.ok (), fs')) :
    ∃ f g, fsFindFile fs dp = some f ∧ env.gunzip f.content = .ok g ∧
      fsFindFile fs' (pathJoin ep bin_path) = some ⟨g, 0o644⟩ := by
  unfold extractArtifact at hex
  rw [if_neg (by simp [h1]), if_pos h2] at hex
  have hfind1 : fsFindFile (fsMkdirTree fs (pathJoin ep bin_path).dropLast) dp =
      fsFindFile fs dp := rfl
  match hfd : fsFindFile fs dp with
  | none =>
    simp only [hfind1, hfd] at hex
    exact absurd (congrArg Prod.fst hex) (by simp)
  | some f =>
    simp only [hfind1, hfd] at hex
    match hg : env.gunzip f.content with
    | .error e =>
      simp only [hg] at hex
      exact absurd (congrArg Prod.fst hex) (by simp)
    | .ok g =>
      simp only [hg, fsWriteFile_after_mkdirTree] at hex
      have hfs' := congrArg Prod.snd hex
      simp only at hfs'
      refine ⟨f, g, rfl, hg, ?_⟩
      rw [← hfs']
      exact fsFindFile_write_self _ _ (pathJoin ep bin_path) g 0o644
        (fsWriteFile_after_mkdirTree _ _ _ _)

/-! ## C9: a `.gz` extraction always produces the planned binary -/

/-- C9: for an artifact whose filename ends in `.gz` but not `.tar.gz`,
a successful extraction leaves a file exactly at
`extractRoot/binaryPath`, so the binary-not-found branch of default
placement cannot fire for this artifact shape. -/
theorem c9_gz_binary_exists (env : Env) (plugin : Plugin) (ctx : InstallCtx)
    (tmp ip : FsPath) (fs fs' : FS)
    (h1 : endsWithS ctx.filename ".tar.gz" = false)
    (h2 : endsWithS ctx.filename ".gz" = true)
    (hex : extractArtifact env ctx.filename ctx.bin_path (pathJoin tmp ctx.filename)
      (tmp ++ ["extract"]) fs = (.ok (), fs')) :
    (∃ f, fsFindFile fs' (pathJoin (tmp ++ ["extract"]) ctx.bin_path) = some f) ∧
    (plugin.custom_copy = none →
      (placeStage plugin ctx ip tmp fs').1 ≠ .error .binaryNotFound) := by
  obtain ⟨f, g, -, -, hfind⟩ :=
    extractArtifact_gz_ok env ctx.filename ctx.bin_path (pathJoin tmp ctx.filename)
      (tmp ++ ["extract"]) fs fs' h1 h2 hex
  refine ⟨⟨_, hfind⟩, ?_⟩
  intro hcc
  unfold placeStage
  rw [hcc]
  simp only [hfind]
  split
  · rename_i e hw
    have he := fsWriteFile_error _ _ _ _ _ hw
    subst he
    simp
  · split
    · rename_i fs2 hw e hch
      have he := fsChmod_error _ _ _ _ hch
      subst he
      simp
    · simp

/-- C9 witness: a concrete `.gz` install shape: after extraction, the
planned binary exists under the extraction root, and default placement
cannot report `Binary file not found`. -/
theorem c9_witness :
    (∃ f, fsFindFile
        ⟨[(["tmpdir", "extract", "fd"], ⟨"BIN2", 0o644⟩),
          (["tmpdir", "fd.gz"], ⟨"gz", 0o644⟩)],
         [[], ["tmpdir"], ["tmpdir", "extract"]]⟩
        (pathJoin (tmpRoot ++ ["extract"]) "fd") = some f) ∧
    (placeStage fdPlugin ⟨fdKw "fd.gz", "fd.gz", "", "fd", "u"⟩ ["inst"] tmpRoot
        ⟨[(["tmpdir", "extract", "fd"], ⟨"BIN2", 0o644⟩),
          (["tmpdir", "fd.gz"], ⟨"gz", 0o644⟩)],
         [[], ["tmpdir"], ["tmpdir", "extract"]]⟩).1 ≠
      .error .binaryNotFound := by
  have h := c9_gz_binary_exists
    ⟨"linux", "x86_64", fun _ => .error .downloadFailed, fun _ => "d",
     fun _ => .ok "BIN2", fun _ => .error .tarFault⟩
    fdPlugin ⟨fdKw "fd.gz", "fd.gz", "", "fd", "u"⟩ tmpRoot ["inst"]
    ⟨[(["tmpdir", "fd.gz"], ⟨"gz", 0o644⟩)], [[], ["tmpdir"], ["tmpdir", "extract"]]⟩
    ⟨[(["tmpdir", "extract", "fd"], ⟨"BIN2", 0o644⟩),
      (["tmpdir", "fd.gz"], ⟨"gz", 0o644⟩)],
     [[], ["tmpdir"], ["tmpdir", "extract"]]⟩
    (by decide) (by decide) (by decide)
  exact ⟨h.1, h.2 rfl⟩

theorem pathJoin_prefix (tmp : FsPath) (s : String) (habs : pyIsAbs s = false) :
    tmp <+: pathJoin tmp s := by
  unfold pathJoin
  rw [if_neg (by simp [habs])]
  exact List.prefix_append tmp (splitPathStr s)

/-- With a declared checksum template, a manifest lacking the artifact's
entry or carrying a mismatching digest makes the pipeline body fail, and
every path outside the working directory is left untouched. -/
theorem installBody_checksum_fails (env : Env) (plugin : Plugin) (ctx : InstallCtx)
    (ip tmp : FsPath) (fs : FS) (artifact churl man : String)
    (hdecl : templateTruthy plugin.checksum_filename_template = true)
    (habs1 : pyIsAbs ctx.filename = false)
    (habs2 : pyIsAbs ctx.checksum_filename = false)
    (hart : env.fetch ctx.download_url = .ok artifact)
    (hchurl : pyFormat CHECKSUM_URL ctx.kw = .ok churl)
    (hman : env.fetch churl = .ok man)
    (hpne : pathJoin tmp ctx.filename ≠ pathJoin tmp ctx.checksum_filename)
    (hfail : (pyLines man).find?
        (fun l => substrOf (pathName (pathJoin tmp ctx.filename)) l) = none ∨
      ∃ line tok rest, (pyLines man).find?
          (fun l => substrOf (pathName (pathJoin tmp ctx.filename)) l) = some line ∧
        pySplitWs line = tok :: rest ∧ env.sha256 artifact ≠ tok) :
    ∀ q : FsPath, ¬ tmp <+: q →
      (∃ e, (installBody env plugin ctx ip tmp fs).1 = .error e) ∧
      fsFindFile (installBody env plugin ctx ip tmp fs).2 q = fsFindFile fs q := by
  intro q hq
  have hqne : ∀ s : String, pyIsAbs s = false → q ≠ pathJoin tmp s := by
    intro s habs he
    exact hq (he ▸ pathJoin_prefix tmp s habs)
  unfold installBody
  rw [hart]
  simp only
  match hw1 : fsWriteFile fs (pathJoin tmp ctx.filename) artifact 0o644 with
  | .error e => exact ⟨⟨e, rfl⟩, rfl⟩
  | .ok fs1 =>
    simp only
    have hfs1q : fsFindFile fs1 q = fsFindFile fs q :=
      fsFindFile_write_ne fs fs1 _ q artifact 0o644 hw1 (hqne _ habs1)
    have hstage : (∃ e, (checksumStage env plugin ctx tmp fs1).1 = .error e) ∧
        fsFindFile (checksumStage env plugin ctx tmp fs1).2 q = fsFindFile fs1 q := by
      unfold checksumStage
      rw [if_pos hdecl, hchurl]
      simp only
      rw [hman]
      simp only
      match hw2 : fsWriteFile fs1 (pathJoin tmp ctx.checksum_filename) man 0o644 with
      | .error e => exact ⟨⟨e, rfl⟩, rfl⟩
      | .ok fs2 =>
        simp only
        have hfs2q : fsFindFile fs2 q = fsFindFile fs1 q :=
          fsFindFile_write_ne fs1 fs2 _ q man 0o644 hw2 (hqne _ habs2)
        have hmanfile : fsFindFile fs2 (pathJoin tmp ctx.checksum_filename) =
            some ⟨man, 0o644⟩ :=
          fsFindFile_write_self fs1 fs2 _ man 0o644 hw2
        have hartfile : fsFindFile fs2 (pathJoin tmp ctx.filename) =
            some ⟨artifact, 0o644⟩ := by
          rw [fsFindFile_write_ne fs1 fs2 _ _ man 0o644 hw2 hpne]
          exact fsFindFile_write_self fs _ _ artifact 0o644 hw1
        have hver : ∃ e, verify_checksum env fs2 (pathJoin tmp ctx.filename)
            (pathJoin tmp ctx.checksum_filename) = .error e ∨
            verify_checksum env fs2 (pathJoin tmp ctx.filename)
              (pathJoin tmp ctx.checksum_filename) = .ok false := by
          unfold verify_checksum
          rw [hmanfile]
          simp only
          rcases hfail with hnone | ⟨line, tok, rest, hline, hsplit, hne⟩
          · rw [hnone]
            exact ⟨.checksumNotFound, Or.inl rfl⟩
          · rw [hline]
            simp only [hsplit]
            rw [hartfile]
            simp only
            refine ⟨.checksumFailed, Or.inr ?_⟩
            have : (env.sha256 artifact == tok) = false := beq_eq_false_iff_ne.mpr hne
            rw [this]
        obtain ⟨e, hver⟩ := hver
        rcases hver with hver | hver
        · rw [hver]
          exact ⟨⟨e, rfl⟩, hfs2q⟩
        · rw [hver]
          exact ⟨⟨.checksumFailed, rfl⟩, hfs2q⟩
    obtain ⟨⟨e, he⟩, hpres⟩ := hstage
    unfold andThen
    match hcs : checksumStage env plugin ctx tmp fs1 with
    | (.error e', fs') =>
      refine ⟨⟨e', rfl⟩, ?_⟩
      have : fs' = (checksumStage env plugin ctx tmp fs1).2 := by rw [hcs]
      rw [this, hpres, hfs1q]
    | (.ok _, fs') =>
      rw [hcs] at he
      exact absurd he (by simp)

/-! ## C1: a failed checksum aborts the install before placement -/

/-- C1: when the descriptor declares a checksum template and the
downloaded manifest either has no line containing the artifact's
filename or names a digest different from the artifact's, the install
fails and the file at `{installRoot}/bin/{command}` is exactly what it
was before the call — placement never runs.  (The descriptor invariant
that resolved names are relative, non-clashing path components appears
as the `pyIsAbs`/path-inequality hypotheses.) -/
theorem c1_checksum_failure_no_placement (env : Env) (plugin : Plugin)
    (nv : String) (ip : FsPath) (fs0 : FS) (ctx : InstallCtx)
    (artifact churl man : String)
    (hpre : installPrelude env plugin nv = .ok ctx)
    (hdecl : templateTruthy plugin.checksum_filename_template = true)
    (habs1 : pyIsAbs ctx.filename = false)
    (habs2 : pyIsAbs ctx.checksum_filename = false)
    (hart : env.fetch ctx.download_url = .ok artifact)
    (hchurl : pyFormat CHECKSUM_URL ctx.kw = .ok churl)
    (hman : env.fetch churl = .ok man)
    (hpne : pathJoin tmpRoot ctx.filename ≠ pathJoin tmpRoot ctx.checksum_filename)
    (hfail : (pyLines man).find?
        (fun l => substrOf (pathName (pathJoin tmpRoot ctx.filename)) l) = none ∨
      ∃ line tok rest, (pyLines man).find?
          (fun l => substrOf (pathName (pathJoin tmpRoot ctx.filename)) l) = some line ∧
        pySplitWs line = tok :: rest ∧ env.sha256 artifact ≠ tok)
    (hip : ¬ tmpRoot <+: installedBinPath ip plugin) :
    (∃ e, (install_version env plugin nv ip fs0).1 = .error e) ∧
    fsFindFile (install_version env plugin nv ip fs0).2 (installedBinPath ip plugin) =
      fsFindFile fs0 (installedBinPath ip plugin) := by
  unfold install_version
  rw [hpre]
  simp only
  obtain ⟨⟨e, he⟩, hpres⟩ := installBody_checksum_fails env plugin ctx ip tmpRoot
    (fsMkdirTree fs0 tmpRoot) artifact churl man hdecl habs1 habs2 hart hchurl
    hman hpne hfail (installedBinPath ip plugin) hip
  have hb : tmpRoot.isPrefixOf (installedBinPath ip plugin) = false := by
    cases hbb : tmpRoot.isPrefixOf (installedBinPath ip plugin)
    · rfl
    · exact absurd (List.isPrefixOf_iff_prefix.mp hbb) hip
  refine ⟨⟨e, he⟩, ?_⟩
  rw [fsRemoveTree_outside _ _ _ hb, hpres, fsFindFile_mkdirTree]

/-- C1 witness: a descriptor with a declared checksum template whose
manifest names a different digest: the install errors and `inst/bin/t`
does not appear. -/
theorem c1_witness :
    (∃ e, (install_version
        ⟨"linux", "x86_64",
         (fun u => if u = "https://github.com/o/r/releases/download/1.0/t.gz"
            then .ok "ART" else .ok "beefdead  t.gz\n"),
         (fun _ => "deadbeef"), (fun _ => .ok "BIN"), (fun _ => .error .tarFault)⟩
        ⟨"t", "t", "o/r", .lit "t.gz", .lit "t.gz.sha256", .lit "t", none, none,
          fun x => x, none⟩
        "1.0" ["inst"] ⟨[], [[]]⟩).1 = .error e) ∧
    fsFindFile (install_version
        ⟨"linux", "x86_64",
         (fun u => if u = "https://github.com/o/r/releases/download/1.0/t.gz"
            then .ok "ART" else .ok "beefdead  t.gz\n"),
         (fun _ => "deadbeef"), (fun _ => .ok "BIN"), (fun _ => .error .tarFault)⟩
        ⟨"t", "t", "o/r", .lit "t.gz", .lit "t.gz.sha256", .lit "t", none, none,
          fun x => x, none⟩
        "1.0" ["inst"] ⟨[], [[]]⟩).2 ["inst", "bin", "t"] = none := by
  have h := c1_checksum_failure_no_placement
    ⟨"linux", "x86_64",
     (fun u => if u = "https://github.com/o/r/releases/download/1.0/t.gz"
        then .ok "ART" else .ok "beefdead  t.gz\n"),
     (fun _ => "deadbeef"), (fun _ => .ok "BIN"), (fun _ => .error .tarFault)⟩
    ⟨"t", "t", "o/r", .lit "t.gz", .lit "t.gz.sha256", .lit "t", none, none,
      fun x => x, none⟩
    "1.0" ["inst"] ⟨[], [[]]⟩
    ⟨⟨"t", "o/r", "1.0", "1.0", "linux", "x86_64", "t.gz", "t.gz.sha256"⟩,
      "t.gz", "t.gz.sha256", "t",
      "https://github.com/o/r/releases/download/1.0/t.gz"⟩
    "ART" "https://github.com/o/r/releases/download/1.0/t.gz.sha256"
    "beefdead  t.gz\n"
    rfl (by decide) (by decide) (by decide) rfl rfl rfl (by decide)
    (Or.inr ⟨"beefdead  t.gz\n", "beefdead", ["t.gz"], by decide, by decide,
      by decide⟩)
    (by decide)
  exact ⟨h.1, h.2.trans rfl⟩

/-! ## C8: the temporary working directory is always cleaned up -/

/-- C8: starting from a filesystem in which the scoped temporary
directory does not yet exist (it is created fresh at pipeline start),
after `install_version` returns — successfully or with any error — no
file and no directory under the temporary root remains. -/
theorem c8_tmpdir_cleanup (env : Env) (plugin : Plugin) (nv : String)
    (ip : FsPath) (fs0 : FS)
    (hinit : ∀ p : FsPath, tmpRoot <+: p →
      fsFindFile fs0 p = none ∧ p ∉ fs0.dirs) :
    ∀ p : FsPath, tmpRoot <+: p →
      fsFindFile (install_version env plugin nv ip fs0).2 p = none ∧
      p ∉ (install_version env plugin nv ip fs0).2.dirs := by
  intro p hp
  unfold install_version
  match hpre : installPrelude env plugin nv with
  | .error e =>
    simp only
    exact hinit p hp
  | .ok ctx =>
    simp only
    have hb : tmpRoot.isPrefixOf p = true := List.isPrefixOf_iff_prefix.mpr hp
    exact ⟨fsRemoveTree_under _ _ _ hb, fsRemoveTree_dirs _ _ _ hb⟩

/-- C8 witness: after a full (here: failing) install run on an empty
filesystem, nothing under the temporary root remains. -/
theorem c8_witness :
    (∀ p : FsPath, tmpRoot <+: p →
      fsFindFile (⟨[], [[]]⟩ : FS) p = none ∧ p ∉ (⟨[], [[]]⟩ : FS).dirs) ∧
    fsFindFile (install_version envC2 fdPlugin "1.0.0" ["inst"] ⟨[], [[]]⟩).2
        ["tmpdir", "x"] = none ∧
    ["tmpdir", "x"] ∉ (install_version envC2 fdPlugin "1.0.0" ["inst"] ⟨[], [[]]⟩).2.dirs := by
  have hinit : ∀ p : FsPath, tmpRoot <+: p →
      fsFindFile (⟨[], [[]]⟩ : FS) p = none ∧ p ∉ (⟨[], [[]]⟩ : FS).dirs := by
    intro p hp
    refine ⟨rfl, ?_⟩
    intro hm
    have hpn : p = [] := List.mem_singleton.mp hm
    rw [hpn] at hp
    have : tmpRoot = [] := List.prefix_nil.mp hp
    exact absurd this (by decide)
  have h := c8_tmpdir_cleanup envC2 fdPlugin "1.0.0" ["inst"] ⟨[], [[]]⟩ hinit
    ["tmpdir", "x"] (by decide)
  exact ⟨hinit, h.1, h.2⟩

/-! ## C3: the release listing -/

theorem mapM_parse_some (l : List Release)
    (h : ∀ r ∈ l, (parseTs r.published_at).isSome = true) :
    ∃ ks, l.mapM (fun r => parseTs r.published_at) = some ks := by
  induction l with
  | nil => exact ⟨[], rfl⟩
  | cons r rest ih =>
    obtain ⟨k, hk⟩ := Option.isSome_iff_exists.mp (h r (List.mem_cons_self _ _))
    obtain ⟨ks, hks⟩ := ih (fun r' hr' => h r' (List.mem_cons_of_mem _ hr'))
    refine ⟨k :: ks, ?_⟩
    rw [List.mapM_cons, hk, hks]
    rfl

/-- C3 counterexample: on ten releases with strictly increasing publish
times whose newest tag is `vv1.0`, the code emits `1.0` (Python
`lstrip("v")` removes every leading `v`), not the `v1.0` that stripping
one leading `v` would give — so the output is not "each tag with its
leading v stripped". -/
theorem c3_counterexample :
    versionsOf cexReleases =
      .ok ["0.1", "0.2", "0.3", "0.4", "0.5", "0.6", "0.7", "0.8", "0.9", "1.0"] ∧
    (["0.1", "0.2", "0.3", "0.4", "0.5", "0.6", "0.7", "0.8", "0.9", "1.0"] :
        List String) ≠
      ["0.1", "0.2", "0.3", "0.4", "0.5", "0.6", "0.7", "0.8", "0.9", "v1.0"] := by
  constructor
  · rfl
  · decide

/-- C3 (amended): on at least ten releases, all with parseable and
pairwise-distinct publish times, `list_version` keeps exactly the ten
most recent ones and emits them in strictly ascending publish-time
order (oldest of the ten first), each tag with **all** leading `v`
characters stripped, joined by newlines.  (The original claim's
"strictly ascending" forces the distinct-timestamp hypothesis: with
tied timestamps a strictly ascending order cannot exist.) -/
theorem c3_list_version_top10 (releases : List Release)
    (hlen : 10 ≤ releases.length)
    (hparse : ∀ r ∈ releases, (parseTs r.published_at).isSome = true)
    (hdist : releases.Pairwise (fun a b => keyOf a ≠ keyOf b)) :
    ∃ sel rest : List Release,
      List.Perm (sel ++ rest) releases ∧
      sel.length = 10 ∧
      (∀ a ∈ sel, ∀ b ∈ rest, keyOf b < keyOf a) ∧
      (sel.reverse).Pairwise (fun a b => keyOf a < keyOf b) ∧
      versionsOf releases =
        .ok ((sel.reverse).map (fun r => pyLstrip r.tag_name "v")) ∧
      list_version releases =
        .ok (String.intercalate "\n"
          ((sel.reverse).map (fun r => pyLstrip r.tag_name "v"))) := by
  haveI : IsTotal Release (fun a b : Release => keyOf b ≤ keyOf a) :=
    ⟨fun a b => (Nat.le_total (keyOf b) (keyOf a)).elim Or.inl Or.inr⟩
  haveI : IsTrans Release (fun a b : Release => keyOf b ≤ keyOf a) :=
    ⟨fun a b c hab hbc => Nat.le_trans hbc hab⟩
  have hperm : List.Perm (sortedReleases releases) releases :=
    List.perm_insertionSort _ releases
  have hsorted : (sortedReleases releases).Pairwise
      (fun a b : Release => keyOf b ≤ keyOf a) :=
    List.sorted_insertionSort _ releases
  have hsym : Symmetric (fun a b : Release => keyOf a ≠ keyOf b) := by
    intro x y h
    exact h.symm
  have hdistL : (sortedReleases releases).Pairwise
      (fun a b => keyOf a ≠ keyOf b) :=
    (hperm.pairwise_iff (fun h => hsym h)).mpr hdist
  have hsplitL := List.take_append_drop 10 (sortedReleases releases)
  have hlenL : (sortedReleases releases).length = releases.length :=
    hperm.length_eq
  refine ⟨(sortedReleases releases).take 10, (sortedReleases releases).drop 10,
    ?_, ?_, ?_, ?_, ?_, ?_⟩
  · rw [hsplitL]
    exact hperm
  · rw [List.length_take, hlenL]
    exact Nat.min_eq_left hlen
  · have hle := (List.pairwise_append.mp (hsplitL ▸ hsorted)).2.2
    have hne := (List.pairwise_append.mp (hsplitL ▸ hdistL)).2.2
    intro a ha b hb
    exact Nat.lt_of_le_of_ne (hle a ha b hb) (hne a ha b hb).symm
  · rw [List.pairwise_reverse]
    have h1 := (List.pairwise_append.mp (hsplitL ▸ hsorted)).1
    have h2 := (List.pairwise_append.mp (hsplitL ▸ hdistL)).1
    exact (h1.and h2).imp (fun h => Nat.lt_of_le_of_ne h.1 h.2.symm)
  · obtain ⟨ks, hks⟩ := mapM_parse_some releases hparse
    unfold versionsOf
    rw [hks]
    simp only
    rw [List.map_reverse]
  · obtain ⟨ks, hks⟩ := mapM_parse_some releases hparse
    unfold list_version versionsOf
    rw [hks]
    simp only
    rw [List.map_reverse]
    rfl

/-- C3 witness: on the ten mock releases the amended contract holds. -/
theorem c3_witness :
    (10 ≤ cexReleases.length ∧
      (∀ r ∈ cexReleases, (parseTs r.published_at).isSome = true) ∧
      cexReleases.Pairwise (fun a b => keyOf a ≠ keyOf b)) ∧
    (∃ sel rest : List Release,
      List.Perm (sel ++ rest) cexReleases ∧
      sel.length = 10 ∧
      (∀ a ∈ sel, ∀ b ∈ rest, keyOf b < keyOf a) ∧
      (sel.reverse).Pairwise (fun a b => keyOf a < keyOf b) ∧
      versionsOf cexReleases =
        .ok ((sel.reverse).map (fun r => pyLstrip r.tag_name "v")) ∧
      list_version cexReleases =
        .ok (String.intercalate "\n"
          ((sel.reverse).map (fun r => pyLstrip r.tag_name "v")))) :=
  ⟨⟨by decide, by decide, by decide⟩,
    c3_list_version_top10 cexReleases (by decide) (by decide) (by decide)⟩

end AsdfFd
